import Mathlib

/-!
Verification of the recursive ray tracer core (src/src/Tracer.cpp) against its
natural-language specification.  Floating-point scalars are modelled as exact
rationals; the external math primitives that compute square roots and powers
(Math.hpp is an external collaborator per spec §1/§6) are threaded through as
an abstract `MathPrims` record so that every tracer routine stays executable.
-/

namespace RayTracer

/-- Three-component vector (Math.hpp `Vec3`, external collaborator). -/
structure Vec3 where
  x : ℚ
  y : ℚ
  z : ℚ
deriving DecidableEq

instance : Add Vec3 := ⟨fun a b => ⟨a.x + b.x, a.y + b.y, a.z + b.z⟩⟩

instance : Sub Vec3 := ⟨fun a b => ⟨a.x - b.x, a.y - b.y, a.z - b.z⟩⟩

instance : SMul ℚ Vec3 := ⟨fun q v => ⟨q * v.x, q * v.y, q * v.z⟩⟩

/-- Dot product of two vectors (Math::dot). -/
def dot (a b : Vec3) : ℚ := a.x * b.x + a.y * b.y + a.z * b.z

/-- RGB color triple with component-wise arithmetic (Color.hpp, spec §3). -/
structure Color where
  r : ℚ
  g : ℚ
  b : ℚ
deriving DecidableEq

instance : Zero Color := ⟨⟨0, 0, 0⟩⟩

instance : Add Color := ⟨fun a b => ⟨a.r + b.r, a.g + b.g, a.b + b.b⟩⟩

instance : Mul Color := ⟨fun a b => ⟨a.r * b.r, a.g * b.g, a.b * b.b⟩⟩

instance : SMul ℚ Color := ⟨fun q c => ⟨q * c.r, q * c.g, q * c.b⟩⟩

/-- Modelled from the spec: the irrational math primitives of the external
Math.hpp collaborator (square root used by length/distance/normalize, and
the power function used by specular shading) are kept abstract, since exact
rationals carry no canonical square root. -/
structure MathPrims where
  sqrt : ℚ → ℚ
  rpow : ℚ → ℚ → ℚ

/-- Modelled from the spec: Math::length, the Euclidean norm `sqrt(v·v)`. -/
def length (M : MathPrims) (v : Vec3) : ℚ := M.sqrt (dot v v)

/-- Modelled from the spec: Math::normalize, `v / |v|`. -/
def normalize (M : MathPrims) (v : Vec3) : Vec3 := (1 / length M v) • v

/-- Modelled from the spec: Math::direction(from, to), the normalized vector
pointing from the first argument toward the second. -/
def direction (M : MathPrims) (a b : Vec3) : Vec3 := normalize M (b - a)

/-- Modelled from the spec: Math::distance, the Euclidean distance `|b - a|`. -/
def distance (M : MathPrims) (a b : Vec3) : ℚ := M.sqrt (dot (b - a) (b - a))

/-- Ray: origin plus direction (spec §3). -/
structure Ray where
  origin : Vec3
  direction : Vec3

/-- Material: ambient/diffuse/specular colors, shininess exponent, intrinsic
weight (`intrinsity()`) and reflectivity weight (spec §3, Material.hpp). -/
structure Material where
  ambientColor : Color
  diffuseColor : Color
  specularColor : Color
  shininess : ℚ
  intrinsity : ℚ
  reflectivity : ℚ

/-- Geometric data reported by a primitive's intersect routine: hit point,
outward unit normal, parametric distance t. -/
structure Hit where
  point : Vec3
  normal : Vec3
  t : ℚ

/-- Modelled from the spec: a polymorphic geometric primitive (Objects.h is an
external collaborator): a material plus its one operation, ray intersection,
which reports the nearest valid hit along the ray or none (spec §6). -/
structure SceneObject where
  material : Material
  intersect : Ray → Option Hit

/-- The tracer's hit record (Tracer's `Intersection`): geometric data plus
the identity of the intersected object.  The C++ record stores a pointer to
the scene object; since the scene owns one distinct object per list slot,
pointer identity is modelled by the scene index `objIdx`. -/
structure Intersection where
  point : Vec3
  normal : Vec3
  t : ℚ
  objIdx : ℕ
  obj : SceneObject

/-- Modelled from the spec: a point light (ILight), with a position and the
polymorphic `computeIntensityAtPoint` operation (spec §6: constant or
attenuation-based; kept abstract as a function field). -/
structure Light where
  position : Vec3
  intensityAtPoint : Vec3 → Color

/-- Scene: ordered list of primitives and ordered list of lights (spec §3). -/
structure Scene where
  objects : List SceneObject
  lights : List Light

/-- Modelled from the spec: the render camera (Camera.h external collaborator):
eye position, near-clip depth, and the viewport-to-world mapping (spec §6). -/
structure Camera where
  position : Vec3
  nearClip : ℚ
  viewportToWorld : Vec3 → Vec3

/-- Frame buffer: a grid of colors addressed by (row, col), with a pixel
setter (FrameBuffers.hpp `setColor` assigns `pixels[row][col]`). -/
structure FrameBuffer where
  width : ℕ
  height : ℕ
  pixel : ℕ → ℕ → Color

/-- Pixel write: `pixels[row][col] = color`, all other cells untouched. -/
def FrameBuffer.setPixel (fb : FrameBuffer) (row col : ℕ) (c : Color) : FrameBuffer :=
  { fb with pixel := fun r k => if r = row ∧ k = col then c else fb.pixel r k }

/-- Tracer configuration state (Tracer.cpp lines 12-18, spec §4.1). -/
structure Tracer where
  shadowColor : Color
  backgroundColor : Color
  shadowBias : ℚ
  reflectionBias : ℚ
  maxNumReflections : ℕ

/-- One step of the nearest-intersection loop body (Tracer.cpp lines 104-110):
ask the object to intersect the ray; keep the hit only when its t is strictly
below the current best (`+∞` when no hit has been recorded yet, so any finite
t replaces it). -/
def scanStep (ray : Ray) (cur : Option Intersection) (idx : ℕ) (obj : SceneObject) :
    Option Intersection :=
  match obj.intersect ray with
  | none => cur
  | some h =>
    match cur with
    | none => some ⟨h.point, h.normal, h.t, idx, obj⟩
    | some c => if h.t < c.t then some ⟨h.point, h.normal, h.t, idx, obj⟩ else some c

/-- The indexed for-loop of Tracer::findNearestIntersection (lines 104-110),
scanning objects in list order while tracking the running index. -/
def scanObjectsFrom (ray : Ray) : ℕ → List SceneObject → Option Intersection → Option Intersection
  | _, [], cur => cur
  | idx, obj :: rest, cur => scanObjectsFrom ray (idx + 1) rest (scanStep ray cur idx obj)

/-- Tracer::findNearestIntersection, success/closest part: the closest
intersection, or none when no object is hit (`closestIntersection.object ==
nullptr` in the source corresponds to the scan never recording a hit). -/
def findNearestOpt (scene : Scene) (ray : Ray) : Option Intersection :=
  scanObjectsFrom ray 0 scene.objects none

/-- Tracer::findNearestIntersection (lines 101-118) with its C++ out-parameter
semantics made explicit: returns the success flag together with the final
value of the caller-supplied `result` record, which is written only on
success. -/
def findNearestIntersection (scene : Scene) (ray : Ray) (result : Intersection) :
    Bool × Intersection :=
  match findNearestOpt scene ray with
  | none => (false, result)
  | some c => (true, c)

/-- The shadow-occlusion for-loop of Tracer::isInShadow (lines 123-130): an
object occludes when it intersects the shadow ray, is not the object being
shaded (pointer inequality, modelled by index inequality), and its hit point
is strictly closer to the light than the shadow-ray origin is. -/
def shadowScan (M : MathPrims) (shadowRay : Ray) (lightPos : Vec3) (dLight : ℚ)
    (selfIdx : ℕ) : ℕ → List SceneObject → Bool
  | _, [] => false
  | idx, obj :: rest =>
    (match obj.intersect shadowRay with
     | some occ => idx != selfIdx && decide (distance M occ.point lightPos < dLight)
     | none => false)
    || shadowScan M shadowRay lightPos dLight selfIdx (idx + 1) rest

/-- Tracer::isInShadow (lines 120-132): cast a bias-offset ray toward the
light and scan all objects for an occluder. -/
def Tracer.isInShadow (tr : Tracer) (M : MathPrims) (its : Intersection) (light : Light)
    (scene : Scene) : Bool :=
  let shadowRay : Ray :=
    ⟨its.point + tr.shadowBias • its.normal, direction M its.point light.position⟩
  shadowScan M shadowRay light.position (distance M shadowRay.origin light.position)
    its.objIdx 0 scene.objects

/-- Tracer::reflectRay (lines 95-100): mirror the ray direction about the
surface normal, normalize, and offset the origin by the reflection bias. -/
def Tracer.reflectRay (tr : Tracer) (M : MathPrims) (ray : Ray) (its : Intersection) : Ray :=
  let reflectedDirection :=
    normalize M (((-1 : ℚ) • ray.direction) + ((2 * dot ray.direction its.normal) • its.normal))
  ⟨its.point + tr.reflectionBias • reflectedDirection, reflectedDirection⟩

/-- Tracer::computeDiffuseColor (lines 134-140). -/
def Tracer.computeDiffuseColor (M : MathPrims) (its : Intersection) (light : Light) : Color :=
  let directionToLight := direction M its.point light.position
  let strengthAtLightAngle := max 0 (dot its.normal directionToLight)
  strengthAtLightAngle • its.obj.material.diffuseColor

/-- Tracer::computeSpecularColor (lines 142-149); note the halfway vector uses
the light's raw position, exactly as in the source (line 144). -/
def Tracer.computeSpecularColor (M : MathPrims) (its : Intersection) (light : Light)
    (renderCam : Camera) : Color :=
  let directionToCam := direction M its.point renderCam.position
  let halfwayVec := normalize M (directionToCam + light.position)
  let strengthAtCamAngle := max 0 (dot its.normal halfwayVec)
  M.rpow strengthAtCamAngle its.obj.material.shininess • its.obj.material.specularColor

/-- Tracer::traceRay (lines 61-92), the recursive core: depth cutoff, nearest
intersection or background, optional recursive reflection, per-light local
illumination accumulated over the scene's lights, and the weighted blend. -/
def Tracer.traceRay (tr : Tracer) (M : MathPrims) (renderCam : Camera) (scene : Scene)
    (ray : Ray) (iteration : ℕ) : Color :=
  if _h : tr.maxNumReflections ≤ iteration then
    ⟨0, 0, 0⟩
  else
    match findNearestOpt scene ray with
    | none => tr.backgroundColor
    | some its =>
      let reflectedColor : Color :=
        if 0 < its.obj.material.reflectivity then
          tr.traceRay M renderCam scene (tr.reflectRay M ray its) (iteration + 1)
        else ⟨0, 0, 0⟩
      let nonReflectedColor : Color :=
        scene.lights.foldl
          (fun acc light =>
            if tr.isInShadow M its light scene then
              acc + tr.shadowColor
            else
              acc + light.intensityAtPoint its.point *
                (Tracer.computeDiffuseColor M its light +
                 Tracer.computeSpecularColor M its light renderCam))
          its.obj.material.ambientColor
      its.obj.material.intrinsity • nonReflectedColor +
        its.obj.material.reflectivity • reflectedColor
termination_by tr.maxNumReflections - iteration
decreasing_by omega

/-- The primary ray of pixel (row, col) (Tracer::trace, lines 48-53): viewport
coordinate at the pixel center mapped through the camera at the near-clip
depth, ray from the eye toward that world point. -/
def primaryRay (M : MathPrims) (renderCam : Camera) (w h row col : ℕ) : Ray :=
  let pixelWorldPosition := renderCam.viewportToWorld
    ⟨((col : ℚ) + 1/2) * (1 / (w : ℚ)), ((row : ℚ) + 1/2) * (1 / (h : ℚ)), renderCam.nearClip⟩
  ⟨renderCam.position, direction M renderCam.position pixelWorldPosition⟩

/-- The pixel writes issued by one row of the Tracer::trace loop (line 47). -/
def rowWrites (tr : Tracer) (M : MathPrims) (renderCam : Camera) (scene : Scene)
    (w h row : ℕ) : List (ℕ × ℕ × Color) :=
  (List.range w).map fun col =>
    (row, col, tr.traceRay M renderCam scene (primaryRay M renderCam w h row col) 0)

/-- The full sequence of pixel writes of Tracer::trace (lines 46-56), rows in
outer-loop order, columns in inner-loop order. -/
def traceWrites (tr : Tracer) (M : MathPrims) (renderCam : Camera) (scene : Scene)
    (w h : ℕ) : List (ℕ × ℕ × Color) :=
  ((List.range h).map (rowWrites tr M renderCam scene w h)).flatten

/-- Apply a sequence of pixel writes to a frame buffer in order. -/
def applyWrites (fb : FrameBuffer) (l : List (ℕ × ℕ × Color)) : FrameBuffer :=
  l.foldl (fun b w => b.setPixel w.1 w.2.1 w.2.2) fb

/-- Tracer::trace (lines 38-58): for each pixel of the buffer, shoot the
primary ray, trace it at depth 0, and store the color at (row, col). -/
def Tracer.trace (tr : Tracer) (M : MathPrims) (renderCam : Camera) (scene : Scene)
    (fb : FrameBuffer) : FrameBuffer :=
  applyWrites fb (traceWrites tr M renderCam scene fb.width fb.height)

/-- Sum of a list of colors (spec-side vocabulary for the per-light
accumulation). -/
def sumColors (l : List Color) : Color := l.foldr (· + ·) 0

/-- Fuel-indexed variant of Tracer::traceRay: structurally recursive on an
explicit fuel counter so that exhaustion of the recursion-depth budget is
observable as `none`.  Apart from the fuel threading it performs exactly the
steps of Tracer.cpp lines 61-92. -/
def traceRayFuel (tr : Tracer) (M : MathPrims) (renderCam : Camera) (scene : Scene) :
    ℕ → Ray → ℕ → Option Color
  | 0, _, _ => none
  | fuel + 1, ray, iteration =>
    if tr.maxNumReflections ≤ iteration then
      some ⟨0, 0, 0⟩
    else
      match findNearestOpt scene ray with
      | none => some tr.backgroundColor
      | some its =>
        let reflected : Option Color :=
          if 0 < its.obj.material.reflectivity then
            traceRayFuel tr M renderCam scene fuel (tr.reflectRay M ray its) (iteration + 1)
          else some ⟨0, 0, 0⟩
        match reflected with
        | none => none
        | some reflectedColor =>
          some (its.obj.material.intrinsity •
            (scene.lights.foldl
              (fun acc light =>
                if tr.isInShadow M its light scene then
                  acc + tr.shadowColor
                else
                  acc + light.intensityAtPoint its.point *
                    (Tracer.computeDiffuseColor M its light +
                     Tracer.computeSpecularColor M its light renderCam))
              its.obj.material.ambientColor) +
            its.obj.material.reflectivity • reflectedColor)

/-! ### Concrete fixtures used by witnesses and counterexamples -/

/-- Math primitives where the square root is the identity (exact at 1). -/
def MW : MathPrims := ⟨fun q => q, fun a _ => a⟩

/-- A concrete camera at the origin with an identity viewport mapping. -/
def camW : Camera := ⟨⟨0, 0, 0⟩, 1, fun v => v⟩

/-- The empty scene. -/
def sceneEmpty : Scene := ⟨[], []⟩

/-- A concrete ray along +z. -/
def rayW : Ray := ⟨⟨0, 0, 0⟩, ⟨0, 0, 1⟩⟩

/-- A concrete tracer configuration with reflection cutoff 2 and a red
background. -/
def trW : Tracer := ⟨⟨0, 0, 0⟩, ⟨1, 0, 0⟩, 1/1000, 1/1000, 2⟩

/-- A concrete tracer configuration with reflection cutoff 0 and a red
background. -/
def trZero : Tracer := ⟨⟨0, 0, 0⟩, ⟨1, 0, 0⟩, 1/1000, 1/1000, 0⟩

/-- A concrete non-reflective material. -/
def matW : Material := ⟨⟨1/10, 1/10, 1/10⟩, ⟨1, 1, 1⟩, ⟨1, 1, 1⟩, 1, 1, 0⟩

/-- A concrete primitive that always reports a hit at t = 5. -/
def objA : SceneObject := ⟨matW, fun _ => some ⟨⟨0, 0, 5⟩, ⟨0, 0, -1⟩, 5⟩⟩

/-- A concrete primitive that always reports a hit at t = 3. -/
def objB : SceneObject := ⟨matW, fun _ => some ⟨⟨0, 0, 3⟩, ⟨0, 0, -1⟩, 3⟩⟩

/-- A second concrete primitive that also reports a hit at t = 3. -/
def objB2 : SceneObject := ⟨matW, fun _ => some ⟨⟨0, 0, 3⟩, ⟨0, 0, -1⟩, 3⟩⟩

/-- A two-primitive scene where the second object is hit nearer (t = 3) than
the first (t = 5). -/
def sceneAB : Scene := ⟨[objA, objB], []⟩

/-- A two-primitive scene whose objects both report hits at the same t = 3. -/
def sceneTie : Scene := ⟨[objB, objB2], []⟩

/-- The winning intersection in `sceneAB`: the t = 3 hit of object 1. -/
def itsB : Intersection := ⟨⟨0, 0, 3⟩, ⟨0, 0, -1⟩, 3, 1, objB⟩

/-- The winning intersection in `sceneTie`: the t = 3 hit of object 0. -/
def itsTie : Intersection := ⟨⟨0, 0, 3⟩, ⟨0, 0, -1⟩, 3, 0, objB⟩

/-- An arbitrary pre-existing result record (to observe out-parameter
semantics). -/
def resW : Intersection := ⟨⟨9, 9, 9⟩, ⟨0, 1, 0⟩, 99, 7, objA⟩

/-- A concrete occluder sitting at (0, 5, 0), between the shadow-test
fixtures' hit point and light. -/
def objOcc : SceneObject := ⟨matW, fun _ => some ⟨⟨0, 5, 0⟩, ⟨0, -1, 0⟩, 5⟩⟩

/-- Scene for the shadow witness: the shaded object at index 0, the occluder
at index 1. -/
def sceneShadow : Scene := ⟨[objA, objOcc], []⟩

/-- The shaded intersection for the shadow witness: object 0, hit at the
origin with an upward normal. -/
def its0 : Intersection := ⟨⟨0, 0, 0⟩, ⟨0, 1, 0⟩, 1, 0, objA⟩

/-- A concrete light 10 units above the origin with constant unit
intensity. -/
def lightW : Light := ⟨⟨0, 10, 0⟩, fun _ => ⟨1, 1, 1⟩⟩

/-- A concrete incoming ray along +z for the reflection witness. -/
def rayR : Ray := ⟨⟨0, 0, 0⟩, ⟨0, 0, 1⟩⟩

/-- A concrete intersection for the reflection witness: hit at (0,0,2) with
normal +z, so the mirrored direction is (0,0,1) of unit length. -/
def itsR : Intersection := ⟨⟨0, 0, 2⟩, ⟨0, 0, 1⟩, 2, 0, objA⟩

/-- A concrete 2 x 2 all-black frame buffer. -/
def fbW : FrameBuffer := ⟨2, 2, fun _ _ => ⟨0, 0, 0⟩⟩

/-- A concrete 1 x 1 all-black frame buffer. -/
def fb1 : FrameBuffer := ⟨1, 1, fun _ _ => ⟨0, 0, 0⟩⟩

/-- A concrete 1 x 1 all-white frame buffer. -/
def fb2 : FrameBuffer := ⟨1, 1, fun _ _ => ⟨1, 1, 1⟩⟩

/-- Component form of vector addition. -/
lemma Vec3.add_components (a b : Vec3) : a + b = ⟨a.x + b.x, a.y + b.y, a.z + b.z⟩ := rfl

/-- Component form of vector subtraction. -/
lemma Vec3.sub_components (a b : Vec3) : a - b = ⟨a.x - b.x, a.y - b.y, a.z - b.z⟩ := rfl

/-- Component form of vector scaling. -/
lemma Vec3.smul_components (q : ℚ) (v : Vec3) : q • v = ⟨q * v.x, q * v.y, q * v.z⟩ := rfl

/-! ### Unfolding lemmas for the recursive core -/

/-- At or beyond the reflection cutoff, traceRay returns pure black
(Tracer.cpp lines 62-64). -/
lemma traceRay_cutoff (tr : Tracer) (M : MathPrims) (cam : Camera) (scene : Scene)
    (ray : Ray) (iteration : ℕ) (h : tr.maxNumReflections ≤ iteration) :
    tr.traceRay M cam scene ray iteration = ⟨0, 0, 0⟩ := by
  rw [Tracer.traceRay]
  simp [h]

/-- Below the cutoff, a ray that hits nothing yields the background color
(Tracer.cpp lines 66-69). -/
lemma traceRay_miss (tr : Tracer) (M : MathPrims) (cam : Camera) (scene : Scene)
    (ray : Ray) (iteration : ℕ) (hd : ¬ tr.maxNumReflections ≤ iteration)
    (hf : findNearestOpt scene ray = none) :
    tr.traceRay M cam scene ray iteration = tr.backgroundColor := by
  rw [Tracer.traceRay]
  simp [hd, hf]

/-- Below the cutoff, a ray that hits something yields the weighted blend of
the per-light accumulation and the (conditional) recursive reflection
(Tracer.cpp lines 71-92). -/
lemma traceRay_hit (tr : Tracer) (M : MathPrims) (cam : Camera) (scene : Scene)
    (ray : Ray) (iteration : ℕ) (its : Intersection)
    (hd : ¬ tr.maxNumReflections ≤ iteration)
    (hf : findNearestOpt scene ray = some its) :
    tr.traceRay M cam scene ray iteration =
      its.obj.material.intrinsity •
        (scene.lights.foldl
          (fun acc light =>
            if tr.isInShadow M its light scene then
              acc + tr.shadowColor
            else
              acc + light.intensityAtPoint its.point *
                (Tracer.computeDiffuseColor M its light +
                 Tracer.computeSpecularColor M its light cam))
          its.obj.material.ambientColor) +
      its.obj.material.reflectivity •
        (if 0 < its.obj.material.reflectivity then
          tr.traceRay M cam scene (tr.reflectRay M ray its) (iteration + 1)
        else ⟨0, 0, 0⟩) := by
  conv_lhs => rw [Tracer.traceRay]
  simp [hd, hf]

/-! ### Characterization of the nearest-intersection scan -/

/-- One scan step records no hit exactly when nothing was recorded before and
the object misses. -/
lemma scanStep_eq_none (ray : Ray) (acc : Option Intersection) (idx : ℕ) (obj : SceneObject) :
    scanStep ray acc idx obj = none ↔ acc = none ∧ obj.intersect ray = none := by
  cases hi : obj.intersect ray with
  | none => simp [scanStep, hi]
  | some h =>
    cases acc with
    | none => simp [scanStep, hi]
    | some c => by_cases hlt : h.t < c.t <;> simp [scanStep, hi, hlt]

/-- The scan yields no intersection exactly when the accumulator was empty and
every scanned object misses the ray. -/
lemma scanObjectsFrom_eq_none (ray : Ray) (xs : List SceneObject) (n : ℕ)
    (acc : Option Intersection) :
    scanObjectsFrom ray n xs acc = none ↔
      acc = none ∧ ∀ obj ∈ xs, obj.intersect ray = none := by
  induction xs generalizing n acc with
  | nil => simp [scanObjectsFrom]
  | cons obj rest ih =>
    rw [scanObjectsFrom, ih, scanStep_eq_none]
    constructor
    · rintro ⟨⟨hacc, hobj⟩, hrest⟩
      exact ⟨hacc, by simpa [hobj] using hrest⟩
    · rintro ⟨hacc, hall⟩
      exact ⟨⟨hacc, hall obj (by simp)⟩, fun o ho => hall o (by simp [ho])⟩

/-- The nearest-intersection search fails exactly when no primitive reports a
hit (in particular on the empty scene). -/
lemma findNearestOpt_eq_none (scene : Scene) (ray : Ray) :
    findNearestOpt scene ray = none ↔ ∀ obj ∈ scene.objects, obj.intersect ray = none := by
  unfold findNearestOpt
  rw [scanObjectsFrom_eq_none]
  simp

/-- A scan step started from a recorded intersection yields an intersection at
most as far as the recorded one. -/
lemma scanStep_le_acc (ray : Ray) (acc : Option Intersection) (idx : ℕ) (obj : SceneObject)
    (a : Intersection) (ha : acc = some a) :
    ∃ a', scanStep ray acc idx obj = some a' ∧ a'.t ≤ a.t := by
  subst ha
  cases hi : obj.intersect ray with
  | none => exact ⟨a, by simp [scanStep, hi], le_refl _⟩
  | some h =>
    by_cases hlt : h.t < a.t
    · exact ⟨⟨h.point, h.normal, h.t, idx, obj⟩, by simp [scanStep, hi, hlt], le_of_lt hlt⟩
    · exact ⟨a, by simp [scanStep, hi, hlt], le_refl _⟩

/-- A scan step over an object that hits yields an intersection at most as far
as that hit. -/
lemma scanStep_le_hit (ray : Ray) (acc : Option Intersection) (idx : ℕ) (obj : SceneObject)
    (h : Hit) (hi : obj.intersect ray = some h) :
    ∃ a', scanStep ray acc idx obj = some a' ∧ a'.t ≤ h.t := by
  cases acc with
  | none => exact ⟨⟨h.point, h.normal, h.t, idx, obj⟩, by simp [scanStep, hi], le_refl _⟩
  | some a =>
    by_cases hlt : h.t < a.t
    · exact ⟨⟨h.point, h.normal, h.t, idx, obj⟩, by simp [scanStep, hi, hlt], le_refl _⟩
    · exact ⟨a, by simp [scanStep, hi, hlt], le_of_not_lt hlt⟩

/-- Minimality of the scan result: its t is at most the accumulator's t and at
most the t of every hit reported along the scanned list. -/
lemma scanObjectsFrom_min (ray : Ray) (xs : List SceneObject) (n : ℕ)
    (acc : Option Intersection) (c : Intersection)
    (hout : scanObjectsFrom ray n xs acc = some c) :
    (∀ a, acc = some a → c.t ≤ a.t) ∧
    (∀ obj ∈ xs, ∀ h, obj.intersect ray = some h → c.t ≤ h.t) := by
  induction xs generalizing n acc with
  | nil =>
    simp only [scanObjectsFrom] at hout
    subst hout
    exact ⟨fun a ha => by simp_all, by simp⟩
  | cons obj rest ih =>
    rw [scanObjectsFrom] at hout
    obtain ⟨hstep, hrest⟩ := ih (n + 1) (scanStep ray acc n obj) hout
    refine ⟨?_, ?_⟩
    · intro a ha
      obtain ⟨a', hs, hle⟩ := scanStep_le_acc ray acc n obj a ha
      exact le_trans (hstep a' hs) hle
    · intro o ho h hint
      rcases List.mem_cons.mp ho with rfl | ho'
      · obtain ⟨a', hs, hle⟩ := scanStep_le_hit ray acc n o h hint
        exact le_trans (hstep a' hs) hle
      · exact hrest o ho' h hint

/-- Provenance of the scan result: either it is the untouched accumulator, or
it is the hit of a scanned object (at a strictly smaller t than the
accumulator's, when one was recorded). -/
lemma scanObjectsFrom_mem (ray : Ray) (xs : List SceneObject) (n : ℕ)
    (acc : Option Intersection) (c : Intersection)
    (hout : scanObjectsFrom ray n xs acc = some c) :
    acc = some c ∨
      ∃ j obj, xs[j]? = some obj ∧ c.objIdx = n + j ∧ c.obj = obj ∧
        obj.intersect ray = some ⟨c.point, c.normal, c.t⟩ ∧
        ∀ a, acc = some a → c.t < a.t := by
  induction xs generalizing n acc with
  | nil =>
    simp only [scanObjectsFrom] at hout
    exact Or.inl hout
  | cons obj rest ih =>
    rw [scanObjectsFrom] at hout
    rcases ih (n + 1) (scanStep ray acc n obj) hout with hacc' | ⟨j, o, hget, hidx, hobj, hint, hstrict⟩
    · cases hi : obj.intersect ray with
      | none =>
        rw [show scanStep ray acc n obj = acc from by simp [scanStep, hi]] at hacc'
        exact Or.inl hacc'
      | some h =>
        cases acc with
        | none =>
          have hc : some (⟨h.point, h.normal, h.t, n, obj⟩ : Intersection) = some c := by
            simpa [scanStep, hi] using hacc'
          cases hc
          exact Or.inr ⟨0, obj, by simp, by simp, rfl, hi, fun a ha => by cases ha⟩
        | some a0 =>
          by_cases hlt : h.t < a0.t
          · have hc : some (⟨h.point, h.normal, h.t, n, obj⟩ : Intersection) = some c := by
              simpa [scanStep, hi, hlt] using hacc'
            cases hc
            exact Or.inr ⟨0, obj, by simp, by simp, rfl, hi,
              fun a ha => by cases ha; exact hlt⟩
          · have hc : some a0 = some c := by simpa [scanStep, hi, hlt] using hacc'
            exact Or.inl hc
    · refine Or.inr ⟨j + 1, o, by simpa using hget, by omega, hobj, hint, ?_⟩
      intro a ha
      obtain ⟨a', hs, hle⟩ := scanStep_le_acc ray acc n obj a ha
      exact lt_of_lt_of_le (hstrict a' hs) hle

/-- Tie-breaking of the scan: when a scanned object reports a hit at exactly
the winning t, the winner's index is at most that object's index (only a
strictly smaller t replaces the current best). -/
lemma scanObjectsFrom_tie (ray : Ray) (xs : List SceneObject) (n : ℕ)
    (acc : Option Intersection) (c : Intersection)
    (hacc : ∀ a, acc = some a → a.objIdx < n)
    (hout : scanObjectsFrom ray n xs acc = some c) :
    ∀ j obj h, xs[j]? = some obj → obj.intersect ray = some h → h.t = c.t →
      c.objIdx ≤ n + j := by
  induction xs generalizing n acc with
  | nil => intro j obj h hget; simp at hget
  | cons obj0 rest ih =>
    rw [scanObjectsFrom] at hout
    have hacc' : ∀ a, scanStep ray acc n obj0 = some a → a.objIdx < n + 1 := by
      intro a ha
      cases hi : obj0.intersect ray with
      | none =>
        rw [show scanStep ray acc n obj0 = acc from by simp [scanStep, hi]] at ha
        exact lt_trans (hacc a ha) (by omega)
      | some h =>
        cases hb : acc with
        | none =>
          have : some (⟨h.point, h.normal, h.t, n, obj0⟩ : Intersection) = some a := by
            simpa [scanStep, hb, hi] using ha
          cases this; simp
        | some a0 =>
          by_cases hlt : h.t < a0.t
          · have : some (⟨h.point, h.normal, h.t, n, obj0⟩ : Intersection) = some a := by
              simpa [scanStep, hb, hi, hlt] using ha
            cases this; simp
          · have heq : a0 = a := by simpa [scanStep, hb, hi, hlt] using ha
            subst heq
            exact lt_trans (hacc a0 hb) (by omega)
    intro j obj h hget hint hts
    cases j with
    | zero =>
      simp only [List.getElem?_cons_zero, Option.some.injEq] at hget
      subst hget
      rcases scanObjectsFrom_mem ray rest (n + 1) (scanStep ray acc n obj0) c hout with
        hacc'' | ⟨j', o', hget', hidx', hobj', hint', hstrict'⟩
      · have := hacc' c hacc''
        omega
      · obtain ⟨a', hs, hle⟩ := scanStep_le_hit ray acc n obj0 h hint
        have hcc : c.t < c.t := by
          calc c.t < a'.t := hstrict' a' hs
            _ ≤ h.t := hle
            _ = c.t := hts
        exact absurd hcc (lt_irrefl _)
    | succ j' =>
      have := ih (n + 1) (scanStep ray acc n obj0) hacc' hout j' obj h
        (by simpa using hget) hint hts
      omega

/-! ### Characterization of the shadow scan -/

/-- The shadow scan succeeds exactly when some scanned object intersects the
shadow ray, is not the shaded object, and is hit at a point strictly closer
to the light than the shadow-ray origin is. -/
lemma shadowScan_eq_true (M : MathPrims) (shadowRay : Ray) (lightPos : Vec3) (dLight : ℚ)
    (selfIdx : ℕ) (xs : List SceneObject) (n : ℕ) :
    shadowScan M shadowRay lightPos dLight selfIdx n xs = true ↔
      ∃ (j : ℕ) (obj : SceneObject) (occ : Hit), xs[j]? = some obj ∧
        obj.intersect shadowRay = some occ ∧ n + j ≠ selfIdx ∧
        distance M occ.point lightPos < dLight := by
  induction xs generalizing n with
  | nil => simp [shadowScan]
  | cons obj0 rest ih =>
    rw [shadowScan, Bool.or_eq_true, ih]
    constructor
    · rintro (hhead | ⟨j, obj, occ, hget, hint, hne, hdist⟩)
      · cases hi : obj0.intersect shadowRay with
        | none => rw [hi] at hhead; simp at hhead
        | some occ =>
          rw [hi] at hhead
          simp only [Bool.and_eq_true, bne_iff_ne, decide_eq_true_eq] at hhead
          exact ⟨0, obj0, occ, by simp, hi, by simpa using hhead.1, hhead.2⟩
      · exact ⟨j + 1, obj, occ, by simpa using hget, hint, by omega, hdist⟩
    · rintro ⟨j, obj, occ, hget, hint, hne, hdist⟩
      cases j with
      | zero =>
        left
        simp only [List.getElem?_cons_zero, Option.some.injEq] at hget
        subst hget
        rw [hint]
        simp only [Bool.and_eq_true, bne_iff_ne, decide_eq_true_eq]
        exact ⟨by simpa using hne, hdist⟩
      | succ j' =>
        exact Or.inr ⟨j', obj, occ, by simpa using hget, hint, by omega, hdist⟩

/-! ### Claims -/

/-- C3: whenever the recursion depth argument is at least the configured
maximum number of reflections, traceRay returns pure black (0,0,0)
regardless of camera, scene and ray. -/
theorem claim_C3_cutoff_returns_black (tr : Tracer) (M : MathPrims) (cam : Camera)
    (scene : Scene) (ray : Ray) (iteration : ℕ) (h : tr.maxNumReflections ≤ iteration) :
    tr.traceRay M cam scene ray iteration = ⟨0, 0, 0⟩ :=
  traceRay_cutoff tr M cam scene ray iteration h

/-- Witness for C3 at a concrete configuration (cutoff 2, depth 5). -/
theorem claim_C3_cutoff_returns_black_witness :
    trW.maxNumReflections ≤ 5 ∧ trW.traceRay MW camW sceneEmpty rayW 5 = ⟨0, 0, 0⟩ :=
  ⟨by decide, claim_C3_cutoff_returns_black trW MW camW sceneEmpty rayW 5 (by decide)⟩

/-- C4 counterexample: with reflection cutoff 0 and a red background, a ray
through the empty scene (so no primitive reports an intersection) returns
black, not the configured background color: the claim fails at depths at or
beyond the cutoff. -/
theorem claim_C4_counterexample :
    sceneEmpty.objects = [] ∧
    findNearestOpt sceneEmpty rayW = none ∧
    trZero.traceRay MW camW sceneEmpty rayW 0 ≠ trZero.backgroundColor := by
  refine ⟨rfl, rfl, ?_⟩
  rw [traceRay_cutoff trZero MW camW sceneEmpty rayW 0 (by decide)]
  decide

/-- C4 (amended): for every ray that hits nothing — no primitive in the scene
reports an intersection, including the empty scene — and every depth strictly
below the reflection cutoff, traceRay returns exactly the configured
background color. -/
theorem claim_C4_miss_returns_background (tr : Tracer) (M : MathPrims) (cam : Camera)
    (scene : Scene) (ray : Ray) (iteration : ℕ)
    (hd : iteration < tr.maxNumReflections)
    (hf : ∀ obj ∈ scene.objects, obj.intersect ray = none) :
    tr.traceRay M cam scene ray iteration = tr.backgroundColor :=
  traceRay_miss tr M cam scene ray iteration (by omega)
    ((findNearestOpt_eq_none scene ray).mpr hf)

/-- Witness for the amended C4 on the empty scene at depth 0 with cutoff 2. -/
theorem claim_C4_miss_returns_background_witness :
    (0 < trW.maxNumReflections ∧ ∀ obj ∈ sceneEmpty.objects, obj.intersect rayW = none) ∧
    trW.traceRay MW camW sceneEmpty rayW 0 = trW.backgroundColor :=
  ⟨⟨by decide, by simp [sceneEmpty]⟩,
    claim_C4_miss_returns_background trW MW camW sceneEmpty rayW 0 (by decide)
      (by simp [sceneEmpty])⟩

/-- C2: the nearest-intersection search reports no intersection exactly when
no primitive reports a hit (in particular on the empty scene), and any
returned intersection is the hit of one of the scene's primitives and has
minimal t among all hits reported by the scene's primitives. -/
theorem claim_C2_nearest_minimal (scene : Scene) (ray : Ray) :
    (findNearestOpt scene ray = none ↔ ∀ obj ∈ scene.objects, obj.intersect ray = none) ∧
    (∀ its, findNearestOpt scene ray = some its →
      (∃ j, scene.objects[j]? = some its.obj ∧ its.objIdx = j ∧
        its.obj.intersect ray = some ⟨its.point, its.normal, its.t⟩) ∧
      (∀ (j : ℕ) (obj : SceneObject) (h : Hit), scene.objects[j]? = some obj →
        obj.intersect ray = some h → its.t ≤ h.t)) := by
  refine ⟨findNearestOpt_eq_none scene ray, ?_⟩
  intro its hf
  constructor
  · rcases scanObjectsFrom_mem ray scene.objects 0 none its hf with hcontra | ⟨j, o, hget, hidx, hobj, hint, -⟩
    · cases hcontra
    · exact ⟨j, by rw [hobj]; simpa using hget, by omega, by rw [hobj]; exact hint⟩
  · intro j obj h hget hint
    exact (scanObjectsFrom_min ray scene.objects 0 none its hf).2 obj
      (List.getElem?_mem hget) h hint

/-- Witness for C2 on the concrete two-primitive scene: the t = 3 hit of
object 1 wins over the t = 5 hit of object 0. -/
theorem claim_C2_nearest_minimal_witness :
    (∃ j, sceneAB.objects[j]? = some itsB.obj ∧ itsB.objIdx = j ∧
      itsB.obj.intersect rayW = some ⟨itsB.point, itsB.normal, itsB.t⟩) ∧
    (∀ (j : ℕ) (obj : SceneObject) (h : Hit), sceneAB.objects[j]? = some obj →
      obj.intersect rayW = some h → itsB.t ≤ h.t) :=
  (claim_C2_nearest_minimal sceneAB rayW).2 itsB rfl

/-- C10: when no primitive reports an intersection, the search returns false
and the caller-supplied result record unchanged; and any returned winner's
index is at most the index of every primitive reporting a hit at the same t,
so on ties for minimal t the lower scene index wins. -/
theorem claim_C10_out_param_and_ties (scene : Scene) (ray : Ray) (result : Intersection) :
    ((∀ obj ∈ scene.objects, obj.intersect ray = none) →
      findNearestIntersection scene ray result = (false, result)) ∧
    (∀ its, findNearestOpt scene ray = some its →
      ∀ (j : ℕ) (obj : SceneObject) (h : Hit), scene.objects[j]? = some obj →
        obj.intersect ray = some h → h.t = its.t → its.objIdx ≤ j) := by
  constructor
  · intro hall
    unfold findNearestIntersection
    rw [(findNearestOpt_eq_none scene ray).mpr hall]
  · intro its hf j obj h hget hint hts
    have := scanObjectsFrom_tie ray scene.objects 0 none its (fun a ha => by cases ha) hf
      j obj h hget hint hts
    omega

/-- Witness for C10: on the empty scene the record `resW` comes back
unchanged with a false flag, and on the tie scene (both hits at t = 3) the
winner's index 0 is at most the other hitter's index 1. -/
theorem claim_C10_out_param_and_ties_witness :
    findNearestIntersection sceneEmpty rayW resW = (false, resW) ∧ itsTie.objIdx ≤ 1 :=
  ⟨(claim_C10_out_param_and_ties sceneEmpty rayW resW).1 (by simp [sceneEmpty]),
    (claim_C10_out_param_and_ties sceneTie rayW resW).2 itsTie rfl 1 objB2
      ⟨⟨0, 0, 3⟩, ⟨0, 0, -1⟩, 3⟩ rfl rfl rfl⟩

/-- C5: the shadow test reports true exactly when the scene contains a
primitive, other than the one being shaded, that the ray from
`hitPoint + shadowBias • normal` toward the light intersects at a point whose
distance to the light is strictly smaller than the distance from that origin
to the light (this is the distance comparison the source performs,
Tracer.cpp line 127). -/
theorem claim_C5_shadow_iff (tr : Tracer) (M : MathPrims) (its : Intersection)
    (light : Light) (scene : Scene) :
    tr.isInShadow M its light scene = true ↔
      ∃ (j : ℕ) (obj : SceneObject) (occ : Hit),
        scene.objects[j]? = some obj ∧
        obj.intersect ⟨its.point + tr.shadowBias • its.normal,
          direction M its.point light.position⟩ = some occ ∧
        j ≠ its.objIdx ∧
        distance M occ.point light.position <
          distance M (its.point + tr.shadowBias • its.normal) light.position := by
  unfold Tracer.isInShadow
  rw [shadowScan_eq_true]
  simp

/-- Witness for C5: in the concrete shadow scene, the occluder at index 1
(hit point at squared distance 25 to the light, against an origin-to-light
squared distance just under 100, with the identity square root) puts the
shaded point of object 0 in shadow. -/
theorem claim_C5_shadow_iff_witness :
    trW.isInShadow MW its0 lightW sceneShadow = true :=
  (claim_C5_shadow_iff trW MW its0 lightW sceneShadow).mpr
    ⟨1, objOcc, ⟨⟨0, 5, 0⟩, ⟨0, -1, 0⟩, 5⟩, rfl, rfl, by decide,
      by norm_num [distance, dot, MW, trW, its0, lightW, Vec3.sub_components, Vec3.add_components,
        Vec3.smul_components]⟩

/-- Scaling both arguments of the dot product squares the scale factor. -/
lemma dot_smul_smul (q : ℚ) (v : Vec3) : dot (q • v) (q • v) = q * q * dot v v := by
  simp [dot, Vec3.smul_components]
  ring

/-- Normalization yields a unit vector whenever the external square root is
exact and nonzero on the vector's squared norm. -/
lemma normalize_unit (M : MathPrims) (v : Vec3)
    (hsq : M.sqrt (dot v v) * M.sqrt (dot v v) = dot v v)
    (hne : M.sqrt (dot v v) ≠ 0) :
    dot (normalize M v) (normalize M v) = 1 := by
  rw [normalize, length, dot_smul_smul]
  generalize hs : M.sqrt (dot v v) = s at hsq hne ⊢
  rw [← hsq]
  field_simp

/-- C6: the reflected ray's direction is the normalization of
`-d + 2 (d·n) n`, its origin is the hit point offset by the reflection bias
along that direction, and whenever the external square root is exact and
nonzero on the mirrored vector's squared norm, the direction has unit
squared norm. -/
theorem claim_C6_reflect_ray (tr : Tracer) (M : MathPrims) (ray : Ray) (its : Intersection) :
    (tr.reflectRay M ray its).direction =
      normalize M (((-1 : ℚ) • ray.direction) +
        ((2 * dot ray.direction its.normal) • its.normal)) ∧
    (tr.reflectRay M ray its).origin =
      its.point + tr.reflectionBias • (tr.reflectRay M ray its).direction ∧
    (∀ v, v = ((-1 : ℚ) • ray.direction) + ((2 * dot ray.direction its.normal) • its.normal) →
      M.sqrt (dot v v) * M.sqrt (dot v v) = dot v v → M.sqrt (dot v v) ≠ 0 →
      dot (tr.reflectRay M ray its).direction (tr.reflectRay M ray its).direction = 1) := by
  refine ⟨rfl, rfl, ?_⟩
  rintro v rfl hsq hne
  exact normalize_unit M _ hsq hne

/-- Component form of color addition. -/
lemma Color.addColor_components (a b : Color) : a + b = ⟨a.r + b.r, a.g + b.g, a.b + b.b⟩ := rfl

/-- The zero color is pure black. -/
lemma Color.zero_def : (0 : Color) = ⟨0, 0, 0⟩ := rfl

/-- Color addition is associative. -/
lemma Color.add_assoc (a b c : Color) : a + b + c = a + (b + c) := by
  simp only [Color.addColor_components]
  congr 1 <;> ring

/-- Black is a right identity for color addition. -/
lemma Color.add_zero (a : Color) : a + 0 = a := by
  simp [Color.addColor_components, Color.zero_def]

/-- Summing color contributions with a left fold starting from a base color
equals the base color plus the sum of the contributions. -/
lemma foldl_add_sumColors {α : Type} (f : α → Color) (l : List α) (a : Color) :
    l.foldl (fun acc x => acc + f x) a = a + sumColors (l.map f) := by
  induction l generalizing a with
  | nil => simp [sumColors, Color.add_zero]
  | cons x xs ih =>
    rw [List.foldl_cons, ih, List.map_cons]
    rw [show sumColors (f x :: xs.map f) = f x + sumColors (xs.map f) from rfl]
    rw [Color.add_assoc]

/-- C1: below the cutoff, the color of a ray that hits a primitive is
`intrinsity • nonReflected + reflectivity • reflected`, where nonReflected is
the material's ambient color plus, for every light, the shadow color when the
light is occluded and `lightIntensity(point) * (diffuse + specular)` when it
is not, and where reflected is the recursive trace of the reflected ray at
depth+1 when the material's reflectivity is strictly positive and pure black
otherwise. -/
theorem claim_C1_shading_blend (tr : Tracer) (M : MathPrims) (cam : Camera) (scene : Scene)
    (ray : Ray) (iteration : ℕ) (its : Intersection)
    (hd : iteration < tr.maxNumReflections)
    (hf : findNearestOpt scene ray = some its) :
    tr.traceRay M cam scene ray iteration =
      its.obj.material.intrinsity •
        (its.obj.material.ambientColor +
          sumColors (scene.lights.map fun light =>
            if tr.isInShadow M its light scene then tr.shadowColor
            else light.intensityAtPoint its.point *
              (Tracer.computeDiffuseColor M its light +
               Tracer.computeSpecularColor M its light cam))) +
      its.obj.material.reflectivity •
        (if 0 < its.obj.material.reflectivity then
          tr.traceRay M cam scene (tr.reflectRay M ray its) (iteration + 1)
        else ⟨0, 0, 0⟩) := by
  rw [traceRay_hit tr M cam scene ray iteration its (by omega) hf]
  have hfn :
      (fun (acc : Color) light =>
        if tr.isInShadow M its light scene then
          acc + tr.shadowColor
        else
          acc + light.intensityAtPoint its.point *
            (Tracer.computeDiffuseColor M its light +
             Tracer.computeSpecularColor M its light cam)) =
      fun (acc : Color) light =>
        acc + (if tr.isInShadow M its light scene then tr.shadowColor
          else light.intensityAtPoint its.point *
            (Tracer.computeDiffuseColor M its light +
             Tracer.computeSpecularColor M its light cam)) := by
    funext acc light
    split <;> rfl
  rw [hfn, foldl_add_sumColors]

/-- Witness for C1 on the concrete two-primitive, zero-light scene at depth
0 with cutoff 2: the blend equation instantiated at the winning t = 3 hit. -/
theorem claim_C1_shading_blend_witness :
    (0 < trW.maxNumReflections ∧ findNearestOpt sceneAB rayW = some itsB) ∧
    trW.traceRay MW camW sceneAB rayW 0 =
      itsB.obj.material.intrinsity •
        (itsB.obj.material.ambientColor +
          sumColors (sceneAB.lights.map fun light =>
            if trW.isInShadow MW itsB light sceneAB then trW.shadowColor
            else light.intensityAtPoint itsB.point *
              (Tracer.computeDiffuseColor MW itsB light +
               Tracer.computeSpecularColor MW itsB light camW))) +
      itsB.obj.material.reflectivity •
        (if 0 < itsB.obj.material.reflectivity then
          trW.traceRay MW camW sceneAB (trW.reflectRay MW rayW itsB) 1
        else ⟨0, 0, 0⟩) :=
  ⟨⟨by decide, rfl⟩,
    claim_C1_shading_blend trW MW camW sceneAB rayW 0 itsB (by decide) rfl⟩

/-- C8: the recursive ray-color procedure terminates within a recursion-depth
budget of `maxNumReflections - iteration` nested calls: any fuel strictly
above that bound makes the fuel-indexed variant complete (never exhausting
its fuel) with exactly the value of traceRay — each recursive call raises
the depth argument by one and recursion is cut off at the configured
maximum. -/
theorem claim_C8_bounded_recursion (tr : Tracer) (M : MathPrims) (cam : Camera)
    (scene : Scene) (fuel : ℕ) (ray : Ray) (iteration : ℕ)
    (hfuel : tr.maxNumReflections - iteration < fuel) :
    traceRayFuel tr M cam scene fuel ray iteration =
      some (tr.traceRay M cam scene ray iteration) := by
  induction fuel generalizing ray iteration with
  | zero => omega
  | succ f ih =>
    by_cases hd : tr.maxNumReflections ≤ iteration
    · rw [traceRay_cutoff tr M cam scene ray iteration hd]
      simp [traceRayFuel, hd]
    · cases hf : findNearestOpt scene ray with
      | none =>
        rw [traceRay_miss tr M cam scene ray iteration hd hf]
        simp [traceRayFuel, hd, hf]
      | some its =>
        rw [traceRay_hit tr M cam scene ray iteration its hd hf]
        by_cases hrefl : 0 < its.obj.material.reflectivity
        · rw [show traceRayFuel tr M cam scene (f + 1) ray iteration =
              match traceRayFuel tr M cam scene f (tr.reflectRay M ray its) (iteration + 1) with
              | none => none
              | some reflectedColor =>
                some (its.obj.material.intrinsity •
                  (scene.lights.foldl
                    (fun acc light =>
                      if tr.isInShadow M its light scene then
                        acc + tr.shadowColor
                      else
                        acc + light.intensityAtPoint its.point *
                          (Tracer.computeDiffuseColor M its light +
                           Tracer.computeSpecularColor M its light cam))
                    its.obj.material.ambientColor) +
                  its.obj.material.reflectivity • reflectedColor)
            from by simp [traceRayFuel, hd, hf, hrefl]]
          rw [ih (tr.reflectRay M ray its) (iteration + 1) (by omega)]
          simp [hrefl]
        · simp [traceRayFuel, hd, hf, hrefl]

/-- Witness for C8: with cutoff 2 and fuel 3, the fuel-indexed tracer
completes on the concrete two-primitive scene at depth 0. -/
theorem claim_C8_bounded_recursion_witness :
    trW.maxNumReflections - 0 < 3 ∧
    traceRayFuel trW MW camW sceneAB 3 rayW 0 =
      some (trW.traceRay MW camW sceneAB rayW 0) :=
  ⟨by decide, claim_C8_bounded_recursion trW MW camW sceneAB 3 rayW 0 (by decide)⟩

/-- Applying writes distributes over list append. -/
lemma applyWrites_append (fb : FrameBuffer) (l1 l2 : List (ℕ × ℕ × Color)) :
    applyWrites fb (l1 ++ l2) = applyWrites (applyWrites fb l1) l2 :=
  List.foldl_append ..

/-- Applying writes never changes the buffer dimensions. -/
lemma applyWrites_dims (fb : FrameBuffer) (l : List (ℕ × ℕ × Color)) :
    (applyWrites fb l).width = fb.width ∧ (applyWrites fb l).height = fb.height := by
  induction l generalizing fb with
  | nil => exact ⟨rfl, rfl⟩
  | cons w rest ih =>
    rw [applyWrites, List.foldl_cons]
    exact ih (fb.setPixel w.1 w.2.1 w.2.2)

/-- The pixel left by one row of writes over a column range: the row's value
at in-range columns of that row, the original pixel elsewhere. -/
lemma applyWrites_row_pixel (f : ℕ → Color) (row' : ℕ) (w : ℕ) (fb : FrameBuffer) (r c : ℕ) :
    (applyWrites fb ((List.range w).map fun col => (row', col, f col))).pixel r c
      = if r = row' ∧ c < w then f c else fb.pixel r c := by
  induction w generalizing fb with
  | zero => simp [applyWrites]
  | succ n ih =>
    rw [List.range_succ, List.map_append, applyWrites_append]
    simp only [List.map_cons, List.map_nil]
    rw [show applyWrites (applyWrites fb ((List.range n).map fun col => (row', col, f col)))
          [(row', n, f n)]
        = (applyWrites fb ((List.range n).map fun col => (row', col, f col))).setPixel row' n
            (f n) from rfl]
    rw [FrameBuffer.setPixel]
    simp only
    rw [ih]
    by_cases hr : r = row'
    · subst hr
      by_cases hc : c = n
      · subst hc
        simp [Nat.lt_succ_self]
      · have hiff : (c < n) ↔ (c < n + 1) := by omega
        simp [hc, hiff]
    · simp [hr]

/-- The pixel left by the full grid of writes: the per-pixel value inside the
w × h range, the original pixel outside it. -/
lemma applyWrites_grid_pixel (F : ℕ → ℕ → Color) (w : ℕ) (h : ℕ) (fb : FrameBuffer)
    (r c : ℕ) :
    (applyWrites fb (((List.range h).map fun row =>
        (List.range w).map fun col => (row, col, F row col)).flatten)).pixel r c
      = if r < h ∧ c < w then F r c else fb.pixel r c := by
  induction h generalizing fb with
  | zero => simp [applyWrites]
  | succ n ih =>
    rw [List.range_succ, List.map_append, List.flatten_append, applyWrites_append]
    simp only [List.map_cons, List.map_nil, List.flatten_cons, List.flatten_nil,
      List.append_nil]
    rw [applyWrites_row_pixel, ih]
    by_cases hr : r = n
    · subst hr
      by_cases hc : c < w
      · simp [hc, Nat.lt_succ_self, lt_irrefl]
      · simp [hc]
    · have hiff : (r < n) ↔ (r < n + 1) := by omega
      simp [hr, hiff]

/-- The pixel value of a traced buffer: in-range pixels carry the primary
ray's traced color, out-of-range pixels are untouched. -/
lemma trace_pixel (tr : Tracer) (M : MathPrims) (cam : Camera) (scene : Scene)
    (fb : FrameBuffer) (r c : ℕ) :
    (tr.trace M cam scene fb).pixel r c =
      if r < fb.height ∧ c < fb.width then
        tr.traceRay M cam scene (primaryRay M cam fb.width fb.height r c) 0
      else fb.pixel r c := by
  unfold Tracer.trace traceWrites rowWrites
  exact applyWrites_grid_pixel
    (fun row col => tr.traceRay M cam scene (primaryRay M cam fb.width fb.height row col) 0)
    fb.width fb.height fb r c

/-- Counting the occurrences of a fixed value in an initial range. -/
lemma countP_range_eq (col w : ℕ) :
    ((List.range w).countP fun c' => decide (c' = col)) = if col < w then 1 else 0 := by
  induction w with
  | zero => simp
  | succ n ih =>
    rw [List.range_succ, List.countP_append, ih]
    rw [show ((List.countP (fun c' => decide (c' = col))) [n]) = if n = col then 1 else 0
      from by simp [List.countP_cons]]
    split_ifs <;> omega

/-- Count of the writes one row contributes to a fixed cell. -/
lemma rowWrites_countP (tr : Tracer) (M : MathPrims) (cam : Camera) (scene : Scene)
    (w h row col row' : ℕ) :
    ((rowWrites tr M cam scene w h row').countP fun p => decide (p.1 = row ∧ p.2.1 = col))
      = if row' = row ∧ col < w then 1 else 0 := by
  unfold rowWrites
  rw [List.countP_map]
  by_cases hr : row' = row
  · rw [show ((fun p => decide (p.1 = row ∧ p.2.1 = col)) ∘ fun col' =>
          ((row', col', tr.traceRay M cam scene (primaryRay M cam w h row' col') 0) :
            ℕ × ℕ × Color))
        = fun c' => decide (c' = col) from by
      funext c'; simp [Function.comp, hr]]
    rw [countP_range_eq]
    simp [hr]
  · rw [show ((fun p => decide (p.1 = row ∧ p.2.1 = col)) ∘ fun col' =>
          ((row', col', tr.traceRay M cam scene (primaryRay M cam w h row' col') 0) :
            ℕ × ℕ × Color))
        = fun _ => false from by
      funext c'; simp [Function.comp, hr]]
    simp [hr]

/-- Summing the per-row counts over all rows. -/
lemma sum_row_counts (row col w h : ℕ) :
    (((List.range h).map fun row' => if row' = row ∧ col < w then 1 else 0).sum : ℕ)
      = if row < h ∧ col < w then 1 else 0 := by
  induction h with
  | zero => simp
  | succ n ih =>
    rw [List.range_succ, List.map_append, List.sum_append, ih]
    simp only [List.map_cons, List.map_nil, List.sum_cons, List.sum_nil]
    split_ifs <;> omega

/-- Count of the writes the whole trace pass makes to a fixed cell: exactly
one for an in-range cell, none otherwise. -/
lemma traceWrites_countP (tr : Tracer) (M : MathPrims) (cam : Camera) (scene : Scene)
    (w h row col : ℕ) :
    ((traceWrites tr M cam scene w h).countP fun p => decide (p.1 = row ∧ p.2.1 = col))
      = if row < h ∧ col < w then 1 else 0 := by
  unfold traceWrites
  rw [List.countP_flatten, List.map_map]
  rw [show (List.countP fun p => decide (p.1 = row ∧ p.2.1 = col)) ∘
        rowWrites tr M cam scene w h
      = fun row' => if row' = row ∧ col < w then 1 else 0 from by
    funext row'; exact rowWrites_countP tr M cam scene w h row col row']
  exact sum_row_counts row col w h

/-- C7: a trace pass writes every in-range cell (row, col) exactly once, and
the color stored there is the depth-0 trace of the primary ray from the
camera's eye position toward the camera image of the viewport coordinate
`((col+0.5)/width, (row+0.5)/height)` at the near-clip depth. -/
theorem claim_C7_per_pixel_write (tr : Tracer) (M : MathPrims) (cam : Camera)
    (scene : Scene) (fb : FrameBuffer) (row col : ℕ)
    (hrow : row < fb.height) (hcol : col < fb.width) :
    ((traceWrites tr M cam scene fb.width fb.height).countP
        fun p => decide (p.1 = row ∧ p.2.1 = col)) = 1 ∧
    (tr.trace M cam scene fb).pixel row col =
      tr.traceRay M cam scene
        ⟨cam.position, direction M cam.position (cam.viewportToWorld
          ⟨((col : ℚ) + 1/2) * (1 / (fb.width : ℚ)),
           ((row : ℚ) + 1/2) * (1 / (fb.height : ℚ)), cam.nearClip⟩)⟩ 0 := by
  constructor
  · rw [traceWrites_countP]
    simp [hrow, hcol]
  · rw [trace_pixel]
    simp only [hrow, hcol, and_self, if_true]
    rfl

/-- Witness for C7 on the concrete 2 x 2 buffer at cell (1, 0). -/
theorem claim_C7_per_pixel_write_witness :
    (1 < fbW.height ∧ 0 < fbW.width) ∧
    ((traceWrites trW MW camW sceneEmpty fbW.width fbW.height).countP
        fun p => decide (p.1 = 1 ∧ p.2.1 = 0)) = 1 ∧
    (trW.trace MW camW sceneEmpty fbW).pixel 1 0 =
      trW.traceRay MW camW sceneEmpty
        ⟨camW.position, direction MW camW.position (camW.viewportToWorld
          ⟨((0 : ℚ) + 1/2) * (1 / (fbW.width : ℚ)),
           ((1 : ℚ) + 1/2) * (1 / (fbW.height : ℚ)), camW.nearClip⟩)⟩ 0 :=
  ⟨⟨by decide, by decide⟩,
    claim_C7_per_pixel_write trW MW camW sceneEmpty fbW 1 0 (by decide) (by decide)⟩

/-- C9: the traced color of an in-range pixel does not depend on the prior
contents of the frame buffer — it is a function of the tracer configuration,
math primitives, camera, scene and pixel coordinates alone — and re-tracing
an already-traced buffer reproduces the same per-pixel colors. -/
theorem claim_C9_deterministic_pixels (tr : Tracer) (M : MathPrims) (cam : Camera)
    (scene : Scene) (fba fbb : FrameBuffer) (row col : ℕ)
    (hw : fba.width = fbb.width) (hh : fba.height = fbb.height)
    (hrow : row < fba.height) (hcol : col < fba.width) :
    (tr.trace M cam scene fba).pixel row col = (tr.trace M cam scene fbb).pixel row col ∧
    (tr.trace M cam scene (tr.trace M cam scene fba)).pixel row col =
      (tr.trace M cam scene fba).pixel row col := by
  have hrowb : row < fbb.height := hh ▸ hrow
  have hcolb : col < fbb.width := hw ▸ hcol
  have hdims : (tr.trace M cam scene fba).width = fba.width ∧
      (tr.trace M cam scene fba).height = fba.height := by
    unfold Tracer.trace
    exact applyWrites_dims fba (traceWrites tr M cam scene fba.width fba.height)
  constructor
  · rw [trace_pixel, trace_pixel]
    simp only [hrow, hcol, hrowb, hcolb, and_self, if_true]
    rw [hw, hh]
  · rw [trace_pixel tr M cam scene (tr.trace M cam scene fba) row col]
    rw [hdims.1, hdims.2]
    simp only [hrow, hcol, and_self, if_true]
    rw [trace_pixel]
    simp only [hrow, hcol, and_self, if_true]

/-- Witness for C9 on two 1 x 1 buffers with different initial contents. -/
theorem claim_C9_deterministic_pixels_witness :
    (trW.trace MW camW sceneEmpty fb1).pixel 0 0 =
      (trW.trace MW camW sceneEmpty fb2).pixel 0 0 ∧
    (trW.trace MW camW sceneEmpty (trW.trace MW camW sceneEmpty fb1)).pixel 0 0 =
      (trW.trace MW camW sceneEmpty fb1).pixel 0 0 :=
  claim_C9_deterministic_pixels trW MW camW sceneEmpty fb1 fb2 0 0 rfl rfl
    (by decide) (by decide)

/-- Witness for C6 at the concrete reflection fixture: incoming direction
(0,0,1), normal (0,0,1), mirrored vector (0,0,1) with squared norm 1, on
which the identity square root is exact. -/
theorem claim_C6_reflect_ray_witness :
    (trW.reflectRay MW rayR itsR).direction =
      normalize MW (((-1 : ℚ) • rayR.direction) +
        ((2 * dot rayR.direction itsR.normal) • itsR.normal)) ∧
    (trW.reflectRay MW rayR itsR).origin =
      itsR.point + trW.reflectionBias • (trW.reflectRay MW rayR itsR).direction ∧
    dot (trW.reflectRay MW rayR itsR).direction (trW.reflectRay MW rayR itsR).direction = 1 := by
  obtain ⟨h1, h2, h3⟩ := claim_C6_reflect_ray trW MW rayR itsR
  refine ⟨h1, h2, h3 _ rfl ?_ ?_⟩ <;>
    norm_num [MW, dot, rayR, itsR, Vec3.smul_components, Vec3.add_components]

end RayTracer
